import Mathlib

/-!
Verification development for `src/sol_notifier.py` (sol-price-ticker).

The Python source is shallowly embedded in Lean:
* `Decimal` values are modelled as `ℚ` (the prices handled by the program are
  exact decimal fractions, which `ℚ` represents exactly; the context precision
  of 16 significant digits is never reached by 2-decimal quantized prices).
* `q2` (Decimal.quantize to "0.01" with ROUND_HALF_UP, i.e. ties away from
  zero) becomes an exact rational rounding function.
* the JSON state file becomes an association list of string keys,
* the collaborators (HTTP fetch, Telegram send, PIL font loading) become
  explicit parameters carrying their outcome,
* `main` becomes a pure function from collaborator outcomes and the loaded
  state to the pair (content written to the state file, run outcome).
-/

namespace SolNotifier

/-- Round a rational to the nearest integer, ties away from zero.  This is the
semantics of Python `decimal`'s `ROUND_HALF_UP` rounding mode ("Round to
nearest with ties going away from zero"). -/
def rhalf (y : ℚ) : ℤ :=
  if 0 ≤ y then ⌊y + 1 / 2⌋ else -⌊-y + 1 / 2⌋

/-- Embedding of `q2` from `src/sol_notifier.py` line 18:
`d.quantize(Decimal("0.01"), rounding=ROUND_HALF_UP)`:
round to 2 fractional decimal digits, ties away from zero. -/
def q2 (x : ℚ) : ℚ :=
  (rhalf (x * 100) : ℚ) / 100

lemma rhalf_intCast (n : ℤ) : rhalf (n : ℚ) = n := by
  unfold rhalf
  have hfl : ⌊(n : ℚ) + 1 / 2⌋ = n := by
    rw [Int.floor_eq_iff]
    constructor
    · linarith
    · linarith
  rcases le_or_lt 0 (n : ℚ) with h | h
  · rw [if_pos h, hfl]
  · rw [if_neg (not_le.mpr h)]
    have hfl2 : ⌊-(n : ℚ) + 1 / 2⌋ = -n := by
      rw [Int.floor_eq_iff]
      constructor
      · push_cast
        linarith
      · push_cast
        linarith
    rw [hfl2, neg_neg]

lemma rhalf_neg (y : ℚ) : rhalf (-y) = -rhalf y := by
  unfold rhalf
  rcases lt_trichotomy y 0 with h | h | h
  · rw [if_pos (by linarith : (0 : ℚ) ≤ -y), if_neg (not_le.mpr h), neg_neg]
  · subst h
    norm_num
  · rw [if_neg (by simpa using h), if_pos (le_of_lt h), neg_neg]

lemma abs_sub_rhalf_le (y : ℚ) : |y - (rhalf y : ℚ)| ≤ 1 / 2 := by
  unfold rhalf
  rcases le_or_lt 0 y with h | h
  · rw [if_pos h]
    have h1 : (⌊y + 1 / 2⌋ : ℚ) ≤ y + 1 / 2 := Int.floor_le _
    have h2 : y + 1 / 2 < (⌊y + 1 / 2⌋ : ℚ) + 1 := Int.lt_floor_add_one _
    rw [abs_le]
    constructor <;> linarith
  · rw [if_neg (not_le.mpr h)]
    have h1 : (⌊-y + 1 / 2⌋ : ℚ) ≤ -y + 1 / 2 := Int.floor_le _
    have h2 : -y + 1 / 2 < (⌊-y + 1 / 2⌋ : ℚ) + 1 := Int.lt_floor_add_one _
    push_cast
    rw [abs_le]
    constructor <;> linarith

lemma one_le_abs_sub_of_ne {a b : ℤ} (h : a ≠ b) :
    (1 : ℚ) ≤ |(a : ℚ) - (b : ℚ)| := by
  have h1 : (1 : ℤ) ≤ |a - b| := Int.one_le_abs (sub_ne_zero.mpr h)
  have h2 : ((a - b : ℤ) : ℚ) = (a : ℚ) - (b : ℚ)                    := by push_cast; ring
  calc (1 : ℚ) = ((1 : ℤ) : ℚ) := by norm_num
    _ ≤ ((|a - b| : ℤ) : ℚ) := by exact_mod_cast h1
    _ = |((a - b : ℤ) : ℚ)| := Int.cast_abs
    _ = |(a : ℚ) - (b : ℚ)| := by rw [h2]

/-- `rhalf y` is a nearest integer to `y`. -/
lemma rhalf_nearest (y : ℚ) (m : ℤ) :
    |y - (rhalf y : ℚ)| ≤ |y - (m : ℚ)| := by
  by_cases hm : m = rhalf y
  · rw [hm]
  · have hd := one_le_abs_sub_of_ne hm
    have hr := abs_sub_rhalf_le y
    have htri : |(m : ℚ) - (rhalf y : ℚ)| ≤ |y - (m : ℚ)| + |y - (rhalf y : ℚ)| := by
      calc |(m : ℚ) - (rhalf y : ℚ)| = |(-(y - m)) + (y - rhalf y)| := by ring_nf
        _ ≤ |(-(y - (m : ℚ)))| + |y - (rhalf y : ℚ)| := abs_add _ _
        _ = |y - (m : ℚ)| + |y - (rhalf y : ℚ)| := by rw [abs_neg]
    linarith

/-- Auxiliary tie lemma, nonnegative case. -/
lemma rhalf_tie_away_nonneg (y : ℚ) (hy : 0 ≤ y) (m : ℤ)
    (htie : |y - (m : ℚ)| = |y - (rhalf y : ℚ)|) (hne : m ≠ rhalf y) :
    |(m : ℚ)| < |(rhalf y : ℚ)| := by
  have hr := abs_sub_rhalf_le y
  have hd := one_le_abs_sub_of_ne hne
  have htri : |(m : ℚ) - (rhalf y : ℚ)| ≤ |y - (m : ℚ)| + |y - (rhalf y : ℚ)| := by
    calc |(m : ℚ) - (rhalf y : ℚ)| = |(-(y - m)) + (y - rhalf y)| := by ring_nf
      _ ≤ |(-(y - (m : ℚ)))| + |y - (rhalf y : ℚ)| := abs_add _ _
      _ = |y - (m : ℚ)| + |y - (rhalf y : ℚ)| := by rw [abs_neg]
  have hhalf : |y - (rhalf y : ℚ)| = 1 / 2 := by
    rw [htie] at htri
    linarith
  have hmhalf : |y - (m : ℚ)| = 1 / 2 := by rw [htie, hhalf]
  have hrval : (rhalf y : ℚ) = y + 1 / 2 := by
    have hdef : rhalf y = ⌊y + 1 / 2⌋ := by unfold rhalf; rw [if_pos hy]
    have h1 : (⌊y + 1 / 2⌋ : ℚ) ≤ y + 1 / 2 := Int.floor_le _
    have h2 : y + 1 / 2 < (⌊y + 1 / 2⌋ : ℚ) + 1 := Int.lt_floor_add_one _
    rw [hdef]
    rcases abs_cases (y - (⌊y + 1 / 2⌋ : ℚ)) with ⟨he, _⟩ | ⟨he, _⟩
    · rw [hdef] at hhalf
      rw [he] at hhalf
      linarith
    · rw [hdef] at hhalf
      rw [he] at hhalf
      linarith
  have hmval : (m : ℚ) = y - 1 / 2 := by
    rcases abs_cases (y - (m : ℚ)) with ⟨he, _⟩ | ⟨he, _⟩
    · rw [he] at hmhalf
      linarith
    · exfalso
      apply hne
      rw [he] at hmhalf
      have hmq : (m : ℚ) = y + 1 / 2 := by linarith
      exact_mod_cast hmq.trans hrval.symm
  have hm0 : (0 : ℚ) ≤ (m : ℚ) := by
    by_contra hneg
    push_neg at hneg
    have hmz : m < 0 := by exact_mod_cast hneg
    have hmz1 : m ≤ -1 := by omega
    have hmq : (m : ℚ) ≤ -1 := by exact_mod_cast hmz1
    -- then y = m + 1/2 ≤ -1/2 < 0 contradicts hy
    linarith [hmval]
  rw [abs_of_nonneg hm0, abs_of_pos (by linarith [hrval] : (0 : ℚ) < (rhalf y : ℚ))]
  linarith [hmval, hrval]

/-- At an exact tie, `rhalf` picks the integer farther from zero (this is what
distinguishes ROUND_HALF_UP from banker's rounding). -/
lemma rhalf_tie_away (y : ℚ) (m : ℤ) (htie : |y - (m : ℚ)| = |y - (rhalf y : ℚ)|)
    (hne : m ≠ rhalf y) : |(m : ℚ)| < |(rhalf y : ℚ)| := by
  rcases le_or_lt 0 y with hy | hy
  · exact rhalf_tie_away_nonneg y hy m htie hne
  · have htie2 : |(-y) - ((-m : ℤ) : ℚ)| = |(-y) - (rhalf (-y) : ℚ)| := by
      rw [rhalf_neg]
      push_cast
      rw [show (-y) - (-(m : ℚ)) = -(y - m) by ring,
          show (-y) - (-(rhalf y : ℚ)) = -(y - (rhalf y : ℚ)) by ring,
          abs_neg, abs_neg]
      exact htie
    have hne2 : -m ≠ rhalf (-y) := by
      rw [rhalf_neg]
      intro hc
      exact hne (by omega)
    have := rhalf_tie_away_nonneg (-y) (by linarith) (-m) htie2 hne2
    rw [rhalf_neg] at this
    push_cast at this
    rw [abs_neg, abs_neg] at this
    exact this

lemma q2_eq_div (x : ℚ) : q2 x * 100 = (rhalf (x * 100) : ℚ) := by
  unfold q2
  field_simp

/-- `q2 x` is an integer number of cents. -/
lemma q2_mul_den (x : ℚ) : (q2 x * 100).den = 1 := by
  rw [q2_eq_div]
  exact Rat.den_intCast _

/-- Applying `q2` to an exact number of cents returns it unchanged. -/
lemma q2_cents (c : ℤ) : q2 ((c : ℚ) / 100) = (c : ℚ) / 100 := by
  unfold q2
  have h : ((c : ℚ) / 100) * 100 = (c : ℚ) := by field_simp
  rw [h, rhalf_intCast]

/-! ### Decimal-string serialization

`main` persists `str(price)` where `price` is a 2-decimal quantized
`Decimal`; Python renders such a value as an optional sign, the integral
digits, a dot and exactly two fractional digits (e.g. `"101.50"`,
`"-0.25"`).  We model that textual form at digit level: `DecStr` is the
sign together with the digit lists on both sides of the dot, and
`parseDec` is `Decimal(string)` restricted to this well-formed shape. -/

/-- Base-10 digits with explicit fuel (`fuel ≥ n` suffices), most
significant first. -/
def toDigitsAux : Nat → Nat → List Nat
  | 0, n => [n]
  | fuel + 1, n => if n < 10 then [n] else toDigitsAux fuel (n / 10) ++ [n % 10]

/-- Base-10 digits of a natural number, most significant first
(`toDigits 0 = [0]`, matching decimal text). -/
def toDigits (n : Nat) : List Nat :=
  toDigitsAux n n

/-- Value of a most-significant-first digit list. -/
def ofDigits : List Nat → Nat
  | [] => 0
  | d :: ds => d * 10 ^ ds.length + ofDigits ds

lemma ofDigits_append (a b : List Nat) :
    ofDigits (a ++ b) = ofDigits a * 10 ^ b.length + ofDigits b := by
  induction a with
  | nil => simp [ofDigits]
  | cons d ds ih =>
    simp only [List.cons_append, ofDigits, ih, List.append_eq, List.length_append]
    ring

lemma ofDigits_toDigitsAux : ∀ fuel n, n ≤ fuel → ofDigits (toDigitsAux fuel n) = n := by
  intro fuel
  induction fuel with
  | zero =>
    intro n hn
    have h0 : n = 0 := by omega
    subst h0
    simp [toDigitsAux, ofDigits]
  | succ fuel ih =>
    intro n hn
    simp only [toDigitsAux]
    by_cases h : n < 10
    · rw [if_pos h]
      simp [ofDigits]
    · rw [if_neg h, ofDigits_append]
      have hle : n / 10 ≤ fuel := by omega
      rw [ih (n / 10) hle]
      simp [ofDigits]
      omega

lemma ofDigits_toDigits (n : Nat) : ofDigits (toDigits n) = n :=
  ofDigits_toDigitsAux n n (Nat.le_refl n)

/-- The decimal text of a 2-decimal quantized value: sign flag, integral
digits (most significant first) and the two fractional digits. -/
structure DecStr where
  neg : Bool
  intPart : List Nat
  fracPart : List Nat
deriving DecidableEq, Repr

/-- Embedding of `str(price)` for a 2-decimal quantized `Decimal` value
(the exponent of such a value is -2, so Python prints exactly two
fractional digits). -/
def serializeQ2 (q : ℚ) : DecStr :=
  let c : ℤ := ⌊q * 100⌋
  let n : Nat := c.natAbs
  ⟨decide (c < 0), toDigits (n / 100), [n / 10 % 10, n % 10]⟩

/-- Embedding of `Decimal(s)` on a well-formed decimal string: the exact
rational value the digits denote. -/
def parseDec (d : DecStr) : ℚ :=
  let mag : ℚ := (ofDigits d.intPart : ℚ) + (ofDigits d.fracPart : ℚ) / (10 : ℚ) ^ d.fracPart.length
  if d.neg then -mag else mag

/-- Serialization of an exact number of cents parses back to the same
rational: the write-then-read cycle is lossless for quantized prices. -/
lemma parseDec_serializeQ2_cents (c : ℤ) :
    parseDec (serializeQ2 ((c : ℚ) / 100)) = (c : ℚ) / 100 := by
  have hfl : ⌊((c : ℚ) / 100) * 100⌋ = c := by
    have h : ((c : ℚ) / 100) * 100 = (c : ℚ) := by field_simp
    rw [h, Int.floor_intCast]
  have hof2 : ofDigits [c.natAbs / 10 % 10, c.natAbs % 10] =
      c.natAbs / 10 % 10 * 10 + c.natAbs % 10 := by
    simp [ofDigits]
  have hsplit : (c.natAbs / 100) * 100 + (c.natAbs / 10 % 10 * 10 + c.natAbs % 10)
      = c.natAbs := by omega
  have hsplitq := congrArg (fun n : Nat => (n : ℚ)) hsplit
  push_cast at hsplitq
  have hmag : (ofDigits (toDigits (c.natAbs / 100)) : ℚ) +
      (ofDigits [c.natAbs / 10 % 10, c.natAbs % 10] : ℚ) / (10 : ℚ) ^ (2 : ℕ)
      = (c.natAbs : ℚ) / 100 := by
    rw [ofDigits_toDigits, hof2]
    rw [show ((10 : ℚ) ^ (2 : ℕ)) = 100 by norm_num]
    field_simp
    linarith [hsplitq]
  have habs : (c.natAbs : ℚ) = |(c : ℚ)| := by
    rw [Int.cast_natAbs, Int.cast_abs]
  have hlen : ([c.natAbs / 10 % 10, c.natAbs % 10] : List Nat).length = 2 := rfl
  unfold serializeQ2 parseDec
  simp only [hfl, hlen]
  by_cases hc : c < 0
  · rw [if_pos (by simp [hc]), hmag, habs, abs_of_neg (by exact_mod_cast hc : (c : ℚ) < 0)]
    ring
  · rw [if_neg (by simp [hc]), hmag, habs,
      abs_of_nonneg (by exact_mod_cast not_lt.mp hc : (0 : ℚ) ≤ (c : ℚ))]

/-! ### The persisted JSON state and `main`

`load_state` returns `{}` when the file is absent and the parsed JSON
object otherwise; `save_state` rewrites the whole file with one object.
The object is modelled as an association list from string keys to JSON
values.  A JSON value is either a well-formed decimal string (the only
thing the program ever writes under `"last_price"`) or some other value,
on which `Decimal(...)` is modelled as raising (true for garbage strings
and composite values; no claim depends on the numeric JSON case). -/

/-- A JSON value stored in the state object. -/
inductive Jv where
  | str (d : DecStr)
  | other (n : Nat)
deriving DecidableEq, Repr

/-- The parsed JSON state object (`dict` in the source). -/
abbrev StateObj := List (String × Jv)

/-- `state.get(k)`: first binding of the key, if any. -/
def lookupKey (k : String) : StateObj → Option Jv
  | [] => none
  | kv :: rest => if kv.1 = k then some kv.2 else lookupKey k rest

/-- `state[k] = v`: replace the binding if the key is present (Python dicts
keep insertion order), append it otherwise. -/
def setKey (k : String) (v : Jv) : StateObj → StateObj
  | [] => [(k, v)]
  | kv :: rest => if kv.1 = k then (kv.1, v) :: rest else kv :: setKey k v rest

lemma lookupKey_setKey_same (k : String) (v : Jv) (st : StateObj) :
    lookupKey k (setKey k v st) = some v := by
  induction st with
  | nil => simp [setKey, lookupKey]
  | cons kv rest ih =>
    by_cases h : kv.1 = k
    · simp [setKey, lookupKey, h]
    · simp [setKey, lookupKey, h, ih]

lemma lookupKey_setKey_other (k k2 : String) (hne : k2 ≠ k) (v : Jv) (st : StateObj) :
    lookupKey k2 (setKey k v st) = lookupKey k2 st := by
  have hkk : ¬ k = k2 := fun h => hne h.symm
  induction st with
  | nil =>
    simp only [setKey, lookupKey]
    rw [if_neg hkk]
  | cons kv rest ih =>
    by_cases h : kv.1 = k
    · have hk2 : ¬ kv.1 = k2 := by rw [h]; exact hkk
      simp only [setKey, if_pos h, lookupKey, if_neg hk2]
    · by_cases h2 : kv.1 = k2
      · simp only [setKey, if_neg h, lookupKey, if_pos h2]
      · simp only [setKey, if_neg h, lookupKey, if_neg h2, ih]

/-- `Decimal(value)` applied to a loaded JSON value: succeeds exactly on
well-formed decimal strings. -/
def decOfJv : Jv → Option ℚ
  | .str d => some (parseDec d)
  | .other _ => none

/-- Direction of a fired alert, the emoji choice in `main`. -/
inductive Dir where
  | up
  | down
  | flat
deriving DecidableEq, Repr

/-- The error surfaced by a failed run (uncaught Python exception). -/
inductive Err where
  | state
  | fetch
  | badLast
  | render
  | send
deriving DecidableEq, Repr

/-- Embedding of `main` (`src/sol_notifier.py` lines 135-168).

Inputs are the outcomes of the collaborators:
* `load` is what `load_state()` produces: `.ok []` for an absent file,
  `.ok obj` for a parsed object, `.error` for an unreadable/corrupt file;
* `fetch` is the outcome of `get_sol_price()`;
* `renderOk` / `sendOk` say whether `make_card` / `send_photo_to_telegram`
  complete without raising.

The result is the pair of
* the object written to the state file by `save_state` (`none` when the run
  never writes), and
* the run outcome: `.ok none` for a completed run with no alert,
  `.ok (some dir)` for a completed run that fired with direction `dir`,
  `.error e` for a run terminated by an uncaught exception. -/
def runMain (Δ : ℚ) (load : Except Unit StateObj) (fetch : Except Unit ℚ)
    (renderOk sendOk : Bool) : Option StateObj × Except Err (Option Dir) :=
  match load with
  | .error _ => (none, .error .state)
  | .ok state =>
    let last_str := lookupKey "last_price" state
    match fetch with
    | .error _ => (none, .error .fetch)
    | .ok raw =>
      let price := q2 raw
      match last_str with
      | none =>
        (some (setKey "last_price" (.str (serializeQ2 price)) state), .ok none)
      | some v =>
        match decOfJv v with
        | none => (none, .error .badLast)
        | some lastRaw =>
          let last := q2 lastRaw
          let delta := price - last
          if Δ ≤ |delta| then
            if renderOk then
              let dir : Dir := if 0 < delta then .up else if delta < 0 then .down else .flat
              if sendOk then
                (some (setKey "last_price" (.str (serializeQ2 price)) state), .ok (some dir))
              else (none, .error .send)
            else (none, .error .render)
          else (none, .ok none)

/-! ### The card renderer

`make_card` and its helpers are embedded against a small pixel model of the
PIL operations the source uses.  Rasterization details that the source
delegates to PIL are abstracted:
* `measure` stands for `draw.textbbox((0,0), text, font)[2:]` (width and
  height of the rendered text),
* `raster` stands for glyph coverage of drawn text, anchored at the draw
  position and extending right/down from it; drawing the empty string
  paints nothing (PIL renders no glyphs for `""`),
* the LANCZOS resampling kernel of `resize` is modelled as plain
  coordinate sampling (no claim depends on resampled pixel content),
* a font handle is `Option Nat`: `some size` for a TrueType font at that
  size, `none` for `ImageFont.load_default()`. -/

/-- Embedding of `_autosize_font` (`src/sol_notifier.py` lines 41-55):
starting from `size`, shrink by 2 while the measured width exceeds
`maxWidth`, stopping at the floor of 10; `fontOk` is whether
`ImageFont.truetype` succeeds (its failure returns the default font at
once).  `some s` is a TrueType font at size `s`, `none` the default font. -/
def autosizeFont (wOf : Nat → Nat) (maxWidth : Nat) (fontOk : Bool) (size : Nat) :
    Option Nat :=
  if h10 : 10 < size then
    if fontOk then
      if wOf size ≤ maxWidth then some size
      else autosizeFont wOf maxWidth fontOk (size - 2)
    else none
  else none
termination_by size
decreasing_by omega

/-- An 8-bit RGBA pixel. -/
structure RGBA where
  r : Nat
  g : Nat
  b : Nat
  a : Nat
deriving DecidableEq, Repr

/-- A raster image: dimensions and a pixel function. -/
structure Img where
  w : Nat
  h : Nat
  pix : Nat → Nat → RGBA

/-- `Image.new("RGBA"/"L", (w, h), c)`. -/
def imgNew (w h : Nat) (c : RGBA) : Img :=
  ⟨w, h, fun _ _ => c⟩

/-- The fallback gradient background of `make_card` (lines 81-87): one
horizontal line per row, colour interpolated down the canvas.  Python's
`int(14 + (90 - 14) * y / H)` truncates the nonnegative float towards
zero, i.e. floor division here. -/
def gradientBg (W H : Nat) : Img :=
  ⟨W, H, fun _ y => ⟨14 + 76 * y / H, 20 + 210 * y / H, 30 + 180 * y / H, 255⟩⟩

/-- `img.resize((w, h), Image.LANCZOS)`: exact output dimensions; the
resampling kernel is abstracted to coordinate sampling. -/
def resizeModel (img : Img) (w h : Nat) : Img :=
  ⟨w, h, fun x y => img.pix (x * img.w / w) (y * img.h / h)⟩

/-- Membership of pixel `(x, y)` in the rounded rectangle with bounding
box `[0, 0, w, h]` and corner radius `r` drawn on the mask (line 93). -/
def inRoundedRect (w h r x y : Nat) : Bool :=
  let inCircle : Nat → Nat → Bool := fun cx cy =>
    decide (((x : ℤ) - cx) ^ 2 + ((y : ℤ) - cy) ^ 2 ≤ (r : ℤ) ^ 2)
  decide (x ≤ w) && decide (y ≤ h) &&
    (decide (r ≤ x ∧ x + r ≤ w) || decide (r ≤ y ∧ y + r ≤ h) ||
      inCircle r r || inCircle (w - r) r || inCircle r (h - r) || inCircle (w - r) (h - r))

/-- The `"L"`-mode mask: 255 inside the rounded rectangle, 0 outside. -/
def roundedMask (w h r : Nat) : Nat → Nat → Nat :=
  fun x y => if inRoundedRect w h r x y then 255 else 0

/-- One channel of PIL's masked paste: linear interpolation by mask value. -/
def blendChan (b s m : Nat) : Nat :=
  (b * (255 - m) + s * m) / 255

/-- Masked blend of two pixels (all four channels). -/
def blendRGBA (b s : RGBA) (m : Nat) : RGBA :=
  ⟨blendChan b.r s.r m, blendChan b.g s.g m, blendChan b.b s.b m, blendChan b.a s.a m⟩

/-- `base.paste(src, (ox, oy), mask)` (line 96): inside the pasted region
the pixels are blended by the mask, outside it the base is untouched. -/
def pasteMask (base src : Img) (ox oy : Nat) (mask : Nat → Nat → Nat) : Img :=
  ⟨base.w, base.h, fun x y =>
    if ox ≤ x ∧ x < ox + src.w ∧ oy ≤ y ∧ y < oy + src.h then
      blendRGBA (base.pix x y) (src.pix (x - ox) (y - oy)) (mask (x - ox) (y - oy))
    else base.pix x y⟩

/-- `draw.text((px, py), text, font, fill)`: pixels covered by the
abstract glyph raster (anchored at the position, extending right/down)
take the fill colour; the empty string paints nothing. -/
def drawText (img : Img) (text : String) (font : Option Nat) (px py : ℤ) (fill : RGBA)
    (raster : String → Option Nat → Nat → Nat → Bool) : Img :=
  if text = "" then img
  else
    ⟨img.w, img.h, fun x y =>
      if px ≤ (x : ℤ) ∧ py ≤ (y : ℤ) ∧
          raster text font ((x : ℤ) - px).toNat ((y : ℤ) - py).toNat then fill
      else img.pix x y⟩

/-- `Image.alpha_composite(below, above)` (line 125): the standard "over"
operator on straight-alpha pixels, with `outA` the output alpha scaled
by 255. -/
def alphaComposite (below above : Img) : Img :=
  ⟨below.w, below.h, fun x y =>
    let b := below.pix x y
    let f := above.pix x y
    let outA := f.a * 255 + b.a * (255 - f.a)
    if outA = 0 then ⟨0, 0, 0, 0⟩
    else
      ⟨(f.r * f.a * 255 + b.r * b.a * (255 - f.a)) / outA,
       (f.g * f.a * 255 + b.g * b.a * (255 - f.a)) / outA,
       (f.b * f.a * 255 + b.b * b.a * (255 - f.a)) / outA,
       outA / 255⟩⟩

/-- Decimal digit to its ASCII character. -/
def digitChar (d : Nat) : Char :=
  Char.ofNat (48 + d)

/-- Thousands grouping on a least-significant-first digit-character list:
after every third digit that is followed by more digits, insert a comma
(`Char.ofNat 44`). -/
def commaRevAux : Nat → List Char → List Char
  | _, [] => []
  | i, c :: rest =>
    c :: (if (i + 1) % 3 = 0 ∧ rest ≠ [] then
            Char.ofNat 44 :: commaRevAux (i + 1) rest
          else commaRevAux (i + 1) rest)

/-- Thousands grouping on a most-significant-first digit-character list. -/
def commaGroup (ds : List Char) : List Char :=
  (commaRevAux 0 ds.reverse).reverse

/-- Embedding of `pretty_price` (line 38) and of the inline
`f"${q2(price):,.2f}"` of `make_card` (line 102): dollar sign
(`Char.ofNat 36`), optional minus (45), grouped integral digits, a dot
(46) and exactly two fractional digits. -/
def pretty_price (x : ℚ) : String :=
  let c : ℤ := ⌊q2 x * 100⌋
  let n : Nat := c.natAbs
  String.mk (Char.ofNat 36 ::
    (if c < 0 then [Char.ofNat 45] else []) ++
    commaGroup ((toDigits (n / 100)).map digitChar) ++
    Char.ofNat 46 :: [digitChar (n / 10 % 10), digitChar (n % 10)])

lemma pretty_price_ne_empty (x : ℚ) : pretty_price x ≠ "" := by
  unfold pretty_price
  intro h
  have hd := congrArg String.data h
  simp at hd

/-- Embedding of `make_card` (`src/sol_notifier.py` lines 57-126).

Collaborator parameters: `banner` is the optional `sol-card.jpg` already
converted to RGBA (`none` when opening it raises and the gradient
fallback is drawn); `fontOk` / `fontMedOk` say whether the bold / medium
TrueType fonts load; `measure` and `raster` abstract PIL text metrics
and glyph coverage.  The line
`tmp_font_for_measure = ...` of the source (line 105) binds a font that
is never used afterwards and is dropped here.  `delta` is accepted and
ignored, exactly as in the source. -/
def makeCard (banner : Option Img) (fontOk fontMedOk : Bool)
    (measure : String → Option Nat → Nat × Nat)
    (raster : String → Option Nat → Nat → Nat → Bool)
    (price delta : ℚ) : Img :=
  let W : Nat := 1200
  let H : Nat := 628
  let RADIUS : Nat := 48
  let PADDING : Nat := 36
  let LEFT_X : Nat := 120
  let PRICE_MAX_W : Nat := W - LEFT_X - 120
  let base := imgNew W H ⟨0, 0, 0, 0⟩
  let bg0 := match banner with
    | some b => b
    | none => gradientBg W H
  let bg := resizeModel bg0 (W - 2 * PADDING) (H - 2 * PADDING)
  let base2 := pasteMask base bg PADDING PADDING
    (roundedMask (W - 2 * PADDING) (H - 2 * PADDING) RADIUS)
  let overlay := imgNew W H ⟨255, 255, 255, 0⟩
  let price_str := pretty_price price
  let font_big := autosizeFont (fun s => (measure price_str (some s)).1) PRICE_MAX_W fontOk 160
  let th := (measure price_str font_big).2
  let x : ℤ := (LEFT_X : ℤ)
  let y : ℤ := Int.fdiv ((H : ℤ) - (th : ℤ)) 2 - 10
  let o1 := drawText overlay price_str font_big (x + 3) (y + 3) ⟨0, 0, 0, 120⟩ raster
  let o2 := drawText o1 price_str font_big x y ⟨255, 255, 255, 255⟩ raster
  let handle := ""
  let font_small : Option Nat := if fontMedOk then some 40 else none
  let hw := (measure handle font_small).1
  let hh := (measure handle font_small).2
  let o3 := drawText o2 handle font_small (Int.fdiv ((W : ℤ) - (hw : ℤ)) 2)
    ((H : ℤ) - (hh : ℤ) - 34)
    ⟨235, 240, 255, 230⟩ raster
  alphaComposite base2 o3

/-! ### Facts about the quantization -/

lemma abs_sub_centDiv (x : ℚ) (m : ℤ) :
    |x - (m : ℚ) / 100| = |x * 100 - (m : ℚ)| / 100 := by
  have h : x - (m : ℚ) / 100 = (x * 100 - (m : ℚ)) / 100 := by ring
  rw [h, abs_div]
  norm_num

lemma abs_sub_q2_self (x : ℚ) :
    |x - q2 x| = |x * 100 - (rhalf (x * 100) : ℚ)| / 100 := by
  have h : x - q2 x = (x * 100 - (rhalf (x * 100) : ℚ)) / 100 := by unfold q2; ring
  rw [h, abs_div]
  norm_num

lemma abs_q2 (x : ℚ) : |q2 x| = |(rhalf (x * 100) : ℚ)| / 100 := by
  unfold q2
  rw [abs_div]
  norm_num

lemma q2_q2 (x : ℚ) : q2 (q2 x) = q2 x := by
  have h : q2 x = ((rhalf (x * 100) : ℤ) : ℚ) / 100 := rfl
  rw [h, q2_cents]

lemma parseDec_serializeQ2_q2 (x : ℚ) :
    parseDec (serializeQ2 (q2 x)) = q2 x := by
  have h : q2 x = ((rhalf (x * 100) : ℤ) : ℚ) / 100 := rfl
  rw [h, parseDec_serializeQ2_cents]

/-- C5: for every decimal input, `q2` rounds to the 2nd decimal place
using round-half-away-from-zero: the result is an exact multiple of 0.01,
it is a nearest such multiple, and at an exact tie the multiple farther
from zero is chosen, symmetrically for both signs (`q2 (-x) = -q2 x`);
banker's rounding would pick the even neighbour instead.  `q2` is a pure
function of its argument, so the result is reproducible for the same
input. -/
theorem q2_rounds_half_away_from_zero (x : ℚ) :
    (q2 x * 100).den = 1 ∧
    (∀ m : ℤ, |x - q2 x| ≤ |x - (m : ℚ) / 100|) ∧
    (∀ m : ℤ, |x - (m : ℚ) / 100| = |x - q2 x| → (m : ℚ) / 100 ≠ q2 x →
      |(m : ℚ) / 100| < |q2 x|) ∧
    q2 (-x) = -q2 x := by
  refine ⟨q2_mul_den x, ?_, ?_, ?_⟩
  · intro m
    rw [abs_sub_q2_self, abs_sub_centDiv]
    exact (div_le_div_iff_of_pos_right (by norm_num)).mpr (rhalf_nearest (x * 100) m)
  · intro m htie hne
    rw [abs_sub_q2_self, abs_sub_centDiv] at htie
    have htie2 : |x * 100 - (m : ℚ)| = |x * 100 - (rhalf (x * 100) : ℚ)| := by
      field_simp at htie
      exact htie
    have hne2 : m ≠ rhalf (x * 100) := by
      intro hc
      apply hne
      unfold q2
      rw [hc]
    have hlt := rhalf_tie_away (x * 100) m htie2 hne2
    rw [abs_q2, show |(m : ℚ) / 100| = |(m : ℚ)| / 100 by rw [abs_div]; norm_num]
    exact (div_lt_div_iff_of_pos_right (by norm_num)).mpr hlt
  · unfold q2
    rw [show -x * 100 = -(x * 100) by ring, rhalf_neg]
    push_cast
    ring

/-- C8: quantization is idempotent: `q2 (q2 P) = q2 P` for every decimal
`P`. -/
theorem q2_idempotent (x : ℚ) : q2 (q2 x) = q2 x :=
  q2_q2 x

/-! ### Facts about `runMain` -/

/-- Reduction of a run on a state with no `"last_price"` binding. -/
lemma runMain_no_last (Δ raw : ℚ) (st : StateObj) (r s : Bool)
    (hnone : lookupKey "last_price" st = none) :
    runMain Δ (.ok st) (.ok raw) r s =
      (some (setKey "last_price" (.str (serializeQ2 (q2 raw))) st), .ok none) := by
  simp only [runMain, hnone]

/-- Reduction of a run whose stored price is a decimal string. -/
lemma runMain_with_last (Δ raw : ℚ) (st : StateObj) (d : DecStr) (r s : Bool)
    (hlook : lookupKey "last_price" st = some (.str d)) :
    runMain Δ (.ok st) (.ok raw) r s =
      (let price := q2 raw
       let delta := price - q2 (parseDec d)
       if Δ ≤ |delta| then
         if r then
           let dir : Dir := if 0 < delta then .up else if delta < 0 then .down else .flat
           if s then
             (some (setKey "last_price" (.str (serializeQ2 price)) st), .ok (some dir))
           else (none, .error .send)
         else (none, .error .render)
       else (none, .ok none)) := by
  simp only [runMain, hlook, decOfJv]

/-- A run either writes nothing or completes successfully. -/
lemma runMain_write_ok (Δ : ℚ) (load : Except Unit StateObj)
    (fetch : Except Unit ℚ) (r s : Bool) :
    (runMain Δ load fetch r s).1 = none ∨
      ∃ o, (runMain Δ load fetch r s).2 = .ok o := by
  rcases load with u | st
  · exact Or.inl rfl
  rcases fetch with u | raw
  · exact Or.inl rfl
  unfold runMain
  dsimp only
  split
  · exact Or.inr ⟨none, rfl⟩
  split
  · exact Or.inl rfl
  split
  · split
    · split
      · exact Or.inr ⟨_, rfl⟩
      · exact Or.inl rfl
    · exact Or.inl rfl
  · exact Or.inr ⟨none, rfl⟩

/-- When a run writes state, it writes exactly the loaded object with
`"last_price"` replaced by the serialized quantized fetched price. -/
lemma runMain_write_shape (Δ : ℚ) (load : Except Unit StateObj) (raw : ℚ)
    (r s : Bool) (st2 : StateObj)
    (hw : (runMain Δ load (.ok raw) r s).1 = some st2) :
    ∃ st, load = .ok st ∧
      st2 = setKey "last_price" (.str (serializeQ2 (q2 raw))) st := by
  rcases load with u | st
  · exact absurd hw (by simp [runMain])
  refine ⟨st, rfl, ?_⟩
  unfold runMain at hw
  dsimp only at hw
  split at hw
  · simp only [Option.some.injEq] at hw
    exact hw.symm
  split at hw
  · simp at hw
  split at hw
  · split at hw
    · split at hw
      · simp only [Option.some.injEq] at hw
        exact hw.symm
      · simp at hw
    · simp at hw
  · simp at hw

/-- C1: with a persisted `last_price` `L` and a current quantized price
`P = q2 raw` at distance `|P - L| ≥ Δ`, the run fires with direction Up /
Down / Flat according to the sign of the delta, and the persisted
`last_price` is overwritten with exactly `P`: the new binding is the
serialization of `P` and parses back to `P`, so later comparisons are
relative to the price at this fired alert. -/
theorem fire_updates_baseline (Δ raw : ℚ) (st : StateObj) (d : DecStr)
    (hlook : lookupKey "last_price" st = some (.str d))
    (hthr : Δ ≤ |q2 raw - q2 (parseDec d)|) :
    runMain Δ (.ok st) (.ok raw) true true =
      (some (setKey "last_price" (.str (serializeQ2 (q2 raw))) st),
       .ok (some (if 0 < q2 raw - q2 (parseDec d) then Dir.up
                  else if q2 raw - q2 (parseDec d) < 0 then Dir.down else Dir.flat))) ∧
    lookupKey "last_price" (setKey "last_price" (.str (serializeQ2 (q2 raw))) st) =
      some (.str (serializeQ2 (q2 raw))) ∧
    parseDec (serializeQ2 (q2 raw)) = q2 raw := by
  refine ⟨?_, lookupKey_setKey_same _ _ _, parseDec_serializeQ2_q2 raw⟩
  rw [runMain_with_last Δ raw st d true true hlook]
  simp [hthr]

/-- C2: on a state with no persisted `last_price` (first run), the run
never fires (outcome carries no direction, i.e. no card and no
notification) and persists exactly the observed price quantized to two
decimals: the new binding is its serialization and parses back to it. -/
theorem first_run_baseline (Δ raw : ℚ) (st : StateObj) (renderOk sendOk : Bool)
    (hnone : lookupKey "last_price" st = none) :
    runMain Δ (.ok st) (.ok raw) renderOk sendOk =
      (some (setKey "last_price" (.str (serializeQ2 (q2 raw))) st), .ok none) ∧
    lookupKey "last_price" (setKey "last_price" (.str (serializeQ2 (q2 raw))) st) =
      some (.str (serializeQ2 (q2 raw))) ∧
    parseDec (serializeQ2 (q2 raw)) = q2 raw :=
  ⟨runMain_no_last Δ raw st renderOk sendOk hnone,
   lookupKey_setKey_same _ _ _,
   parseDec_serializeQ2_q2 raw⟩

/-- C3: with a persisted `last_price` `L` and a current quantized price
`P = q2 raw` at distance `|P - L| < Δ`, the run does not fire and writes
nothing to the state file: the persisted state is left entirely
unchanged. -/
theorem below_threshold_frame (Δ raw : ℚ) (st : StateObj) (d : DecStr)
    (renderOk sendOk : Bool)
    (hlook : lookupKey "last_price" st = some (.str d))
    (hlt : |q2 raw - q2 (parseDec d)| < Δ) :
    runMain Δ (.ok st) (.ok raw) renderOk sendOk = (none, .ok none) := by
  rw [runMain_with_last Δ raw st d renderOk sendOk hlook]
  simp [not_le.mpr hlt]

/-- C4: error atomicity: whenever a run terminates with an error (state
file unreadable, price fetch failed, stored value unparsable, card
rendering failed, or notification send failed), nothing is written to the
state file; in particular a fetch failure ends the run before the
decision engine touches state.  State is written only by runs that
complete successfully. -/
theorem error_atomicity (Δ : ℚ) (load : Except Unit StateObj)
    (fetch : Except Unit ℚ) (renderOk sendOk : Bool) (e : Err)
    (herr : (runMain Δ load fetch renderOk sendOk).2 = .error e) :
    (runMain Δ load fetch renderOk sendOk).1 = none := by
  rcases runMain_write_ok Δ load fetch renderOk sendOk with h | ⟨o, ho⟩
  · exact h
  · rw [herr] at ho
    cases ho

/-- C9: every state object written by a run binds `"last_price"` to the
serialization of that run's quantized price, and a subsequent run's
`q2(Decimal(...))` on that binding recovers exactly the same price: the
persisted price survives the write-then-read cycle unchanged. -/
theorem state_round_trip (Δ raw : ℚ) (load : Except Unit StateObj)
    (renderOk sendOk : Bool) (st2 : StateObj)
    (hw : (runMain Δ load (.ok raw) renderOk sendOk).1 = some st2) :
    lookupKey "last_price" st2 = some (.str (serializeQ2 (q2 raw))) ∧
    q2 (parseDec (serializeQ2 (q2 raw))) = q2 raw := by
  obtain ⟨st, -, hst2⟩ := runMain_write_shape Δ load raw renderOk sendOk st2 hw
  subst hst2
  exact ⟨lookupKey_setKey_same _ _ _, by rw [parseDec_serializeQ2_q2, q2_q2]⟩

/-- C10: a state file that parses as a JSON object without a
`"last_price"` key is treated exactly like an absent file: the run does
not fail with a state error, never fires, and writes the quantized
current price into the object under `"last_price"` while preserving every
other key already present. -/
theorem missing_key_like_absent (Δ raw : ℚ) (st : StateObj) (renderOk sendOk : Bool)
    (hnone : lookupKey "last_price" st = none) :
    (runMain Δ (.ok st) (.ok raw) renderOk sendOk).2 = .ok none ∧
    (runMain Δ (.ok st) (.ok raw) renderOk sendOk).1 =
      some (setKey "last_price" (.str (serializeQ2 (q2 raw))) st) ∧
    lookupKey "last_price" (setKey "last_price" (.str (serializeQ2 (q2 raw))) st) =
      some (.str (serializeQ2 (q2 raw))) ∧
    (∀ k, k ≠ "last_price" →
      lookupKey k (setKey "last_price" (.str (serializeQ2 (q2 raw))) st) =
        lookupKey k st) := by
  have hred := runMain_no_last Δ raw st renderOk sendOk hnone
  refine ⟨?_, ?_, lookupKey_setKey_same _ _ _, ?_⟩
  · rw [hred]
  · rw [hred]
  · intro k hk
    exact lookupKey_setKey_other "last_price" k hk _ st

/-! ### Facts about the autosizing renderer -/

/-- A TrueType size returned by the autosizing loop is at most the
starting size and its measured width fits. -/
lemma autosizeFont_some_le (wOf : Nat → Nat) (maxW : Nat) :
    ∀ start s, autosizeFont wOf maxW true start = some s →
      s ≤ start ∧ wOf s ≤ maxW := by
  intro start
  induction start using Nat.strong_induction_on with
  | _ start ih =>
    intro s hs
    unfold autosizeFont at hs
    split at hs
    · split at hs
      · split at hs
        · rename_i hfit
          cases hs
          exact ⟨Nat.le_refl _, hfit⟩
        · rename_i h10 _ hfit
          have hrec := ih (start - 2) (by omega) s hs
          exact ⟨Nat.le_trans hrec.1 (Nat.sub_le _ _), hrec.2⟩
      · rename_i hf
        exact absurd rfl hf
    · cases hs

/-- When the loop exhausts all sizes and falls back to the default font,
every size in the fixed-decrement chain above the floor of 10 was too
wide. -/
lemma autosizeFont_none_chain (wOf : Nat → Nat) (maxW : Nat) :
    ∀ start, autosizeFont wOf maxW true start = none →
      ∀ t, 10 < t → t ≤ start → (start - t) % 2 = 0 → maxW < wOf t := by
  intro start
  induction start using Nat.strong_induction_on with
  | _ start ih =>
    intro hnone t ht10 hts hpar
    unfold autosizeFont at hnone
    split at hnone
    · split at hnone
      · split at hnone
        · cases hnone
        · rename_i h10 _ hfit
          by_cases hteq : t = start
          · subst hteq
            omega
          · exact ih (start - 2) (by omega) hnone t ht10 (by omega) (by omega)
      · rename_i hf
        exact absurd rfl hf
    · rename_i h10
      omega

/-- C6: when the formatted label is too wide at the starting size (with
the TrueType font loading normally), any TrueType size the autosizer
chooses is strictly smaller than the starting size and its rendered width
fits within the configured maximum; the loop shrinks in fixed decrements
of 2, and it falls back to the default font only when every size of that
chain above the floor of 10 is still too wide. -/
theorem autosize_shrinks_to_fit (wOf : Nat → Nat) (maxW start : Nat)
    (hover : maxW < wOf start) :
    (∀ s, autosizeFont wOf maxW true start = some s → s < start ∧ wOf s ≤ maxW) ∧
    (autosizeFont wOf maxW true start = none →
      ∀ t, 10 < t → t ≤ start → (start - t) % 2 = 0 → maxW < wOf t) := by
  constructor
  · intro s hs
    obtain ⟨hle, hfit⟩ := autosizeFont_some_le wOf maxW start s hs
    refine ⟨?_, hfit⟩
    rcases Nat.lt_or_ge s start with h | h
    · exact h
    · have hseq : s = start := Nat.le_antisymm hle h
      subst hseq
      omega
  · exact autosizeFont_none_chain wOf maxW start

/-- Witness for C6 at the source's starting size 160 with a width function
that overflows the maximum width 500 at size 160. -/
theorem autosize_shrinks_to_fit_witness :
    500 < (fun s => 10 * s) 160 ∧
    ((∀ s, autosizeFont (fun s => 10 * s) 500 true 160 = some s →
        s < 160 ∧ (fun s => 10 * s) s ≤ 500) ∧
     (autosizeFont (fun s => 10 * s) 500 true 160 = none →
       ∀ t, 10 < t → t ≤ 160 → (160 - t) % 2 = 0 → 500 < (fun s => 10 * s) t)) :=
  ⟨by norm_num, autosize_shrinks_to_fit (fun s => 10 * s) 500 160 (by norm_num)⟩

/-! ### Facts about the card renderer -/

lemma drawText_empty (img : Img) (font : Option Nat) (px py : ℤ) (fill : RGBA)
    (raster : String → Option Nat → Nat → Nat → Bool) :
    drawText img "" font px py fill raster = img := by
  unfold drawText
  rw [if_pos rfl]

/-- A pixel strictly left of the anchor column is untouched by a text
draw. -/
lemma drawText_pix_left (img : Img) (text : String) (font : Option Nat) (px py : ℤ)
    (fill : RGBA) (raster : String → Option Nat → Nat → Nat → Bool) (x y : Nat)
    (hx : (x : ℤ) < px) :
    (drawText img text font px py fill raster).pix x y = img.pix x y := by
  unfold drawText
  split
  · rfl
  · dsimp only
    rw [if_neg]
    rintro ⟨h1, -⟩
    omega

/-- A pixel strictly left of the paste offset is untouched by a masked
paste. -/
lemma pasteMask_pix_left (base src : Img) (ox oy : Nat) (mask : Nat → Nat → Nat)
    (x y : Nat) (hx : x < ox) :
    (pasteMask base src ox oy mask).pix x y = base.pix x y := by
  unfold pasteMask
  dsimp only
  rw [if_neg]
  rintro ⟨h1, -⟩
  omega

/-- Compositing two transparent pixels yields a transparent pixel. -/
lemma alphaComposite_pix_alpha0 (below above : Img) (x y : Nat)
    (hb : (below.pix x y).a = 0) (hf : (above.pix x y).a = 0) :
    ((alphaComposite below above).pix x y).a = 0 := by
  unfold alphaComposite
  dsimp only
  rw [hb, hf]
  norm_num

/-- The top-left pixel of every rendered card is fully transparent: it
lies outside the pasted banner region (inside the 36-pixel transparent
padding margin) and left of every text anchor, and compositing the
transparent base with the transparent overlay keeps alpha 0. -/
lemma makeCard_pix00_alpha (banner : Option Img) (fontOk fontMedOk : Bool)
    (measure : String → Option Nat → Nat × Nat)
    (raster : String → Option Nat → Nat → Nat → Bool) (price delta : ℚ) :
    ((makeCard banner fontOk fontMedOk measure raster price delta).pix 0 0).a = 0 := by
  unfold makeCard
  dsimp only
  apply alphaComposite_pix_alpha0
  · rw [pasteMask_pix_left _ _ _ _ _ 0 0 (by norm_num)]
    rfl
  · rw [drawText_empty,
      drawText_pix_left _ _ _ _ _ _ _ 0 0 (by norm_num),
      drawText_pix_left _ _ _ _ _ _ _ 0 0 (by norm_num)]
    rfl

/-- C7 counterexample: the claim that no pixel of the saved card has an
alpha value below fully opaque fails at the concrete input price 100,
delta 1.5 (gradient background, fonts loading, any text metrics): the
top-left pixel has alpha 0. -/
theorem makeCard_has_transparent_pixel :
    ¬ (∀ x y : Nat, x < 1200 → y < 628 →
        ((makeCard none true true (fun _ _ => (0, 0)) (fun _ _ _ _ => false)
            100 (3 / 2)).pix x y).a = 255) := by
  intro hall
  have h00 := hall 0 0 (by norm_num) (by norm_num)
  rw [makeCard_pix00_alpha] at h00
  exact absurd h00 (by norm_num)

/-- C7 amended: for every (price, delta) input and every collaborator
behaviour, the rendered card is a fixed 1200×628 canvas, but the final
image is not flattened to an opaque background: it is saved as PNG with
its alpha channel, and the transparent padding margin remains — the
top-left pixel has alpha 0. -/
theorem makeCard_fixed_size_not_flattened (banner : Option Img) (fontOk fontMedOk : Bool)
    (measure : String → Option Nat → Nat × Nat)
    (raster : String → Option Nat → Nat → Nat → Bool) (price delta : ℚ) :
    (makeCard banner fontOk fontMedOk measure raster price delta).w = 1200 ∧
    (makeCard banner fontOk fontMedOk measure raster price delta).h = 628 ∧
    ((makeCard banner fontOk fontMedOk measure raster price delta).pix 0 0).a = 0 :=
  ⟨rfl, rfl, makeCard_pix00_alpha banner fontOk fontMedOk measure raster price delta⟩

/-! ### Witnesses -/

/-- Witness for C1: last price 100.00, threshold 1.00, new price 101.50:
the run fires with direction Up. -/
theorem fire_updates_baseline_witness :
    (runMain 1 (.ok [("last_price", Jv.str (serializeQ2 (q2 100)))])
        (.ok (203 / 2)) true true).2 = .ok (some Dir.up) := by
  have h := (fire_updates_baseline 1 (203 / 2)
      [("last_price", Jv.str (serializeQ2 (q2 100)))] (serializeQ2 (q2 100)) rfl
      (by rw [parseDec_serializeQ2_q2, q2_q2]; norm_num [q2, rhalf, abs_of_pos])).1
  rw [h, parseDec_serializeQ2_q2, q2_q2]
  norm_num [q2, rhalf]

/-- Witness for C2: first run at price 100 with empty state: no fire, the
quantized price is persisted. -/
theorem first_run_baseline_witness :
    runMain 1 (.ok []) (.ok 100) true true =
      (some (setKey "last_price" (.str (serializeQ2 (q2 100))) []), .ok none) :=
  (first_run_baseline 1 100 [] true true rfl).1

/-- Witness for C3: last price 100.00, threshold 1.00, new price 100.50:
no fire and nothing written. -/
theorem below_threshold_frame_witness :
    runMain 1 (.ok [("last_price", Jv.str (serializeQ2 (q2 100)))])
        (.ok (201 / 2)) true true = (none, .ok none) :=
  below_threshold_frame 1 (201 / 2) [("last_price", Jv.str (serializeQ2 (q2 100)))]
    (serializeQ2 (q2 100)) true true rfl
    (by rw [parseDec_serializeQ2_q2, q2_q2]; norm_num [q2, rhalf, abs_of_pos])

/-- Witness for C4: a failed price fetch terminates the run with a fetch
error and nothing is written. -/
theorem error_atomicity_witness :
    (runMain 1 (.ok []) (.error ()) true true).2 = .error .fetch ∧
    (runMain 1 (.ok []) (.error ()) true true).1 = none :=
  ⟨rfl, error_atomicity 1 (.ok []) (.error ()) true true .fetch rfl⟩

/-- Witness for C9: the state written by a first run at price 100 binds
`"last_price"` to the serialized quantized price, which parses back to
it. -/
theorem state_round_trip_witness :
    lookupKey "last_price" (setKey "last_price" (.str (serializeQ2 (q2 100))) []) =
      some (.str (serializeQ2 (q2 100))) ∧
    q2 (parseDec (serializeQ2 (q2 100))) = q2 100 :=
  state_round_trip 1 100 (.ok []) true true
    (setKey "last_price" (.str (serializeQ2 (q2 100))) []) rfl

/-- Witness for C10: a state object `{"mode": 7}` without `"last_price"`
behaves like an absent file and the other key is preserved. -/
theorem missing_key_like_absent_witness :
    (runMain 1 (.ok [("mode", Jv.other 7)]) (.ok 100) true true).2 = .ok none ∧
    (runMain 1 (.ok [("mode", Jv.other 7)]) (.ok 100) true true).1 =
      some (setKey "last_price" (.str (serializeQ2 (q2 100))) [("mode", Jv.other 7)]) ∧
    lookupKey "last_price"
        (setKey "last_price" (.str (serializeQ2 (q2 100))) [("mode", Jv.other 7)]) =
      some (.str (serializeQ2 (q2 100))) ∧
    (∀ k, k ≠ "last_price" →
      lookupKey k (setKey "last_price" (.str (serializeQ2 (q2 100))) [("mode", Jv.other 7)]) =
        lookupKey k [("mode", Jv.other 7)]) :=
  missing_key_like_absent 1 100 [("mode", Jv.other 7)] true true rfl

end SolNotifier
